import Mathlib

/-!
Verification development for the project-context extraction pipeline of the
repository (src/lib/github.ts and the analyze-project API routes).

JavaScript strings are modelled as `List Char`.  Upstream HTTP responses are
modelled by an environment function mapping a requested file path to an
`HttpOutcome`; a rejected promise (network error thrown by `fetch`) is the
`netError` constructor, a non-2xx response (`!res.ok`) is `notOk`, and a
successful raw-content response is `ok body`.
-/

namespace GithubAnalyze

/-- Mirrors JavaScript `String.prototype.includes`: `jsIncludes s pat` is true
iff `pat` occurs as a contiguous substring of `s`. -/
def jsIncludes (s pat : List Char) : Bool :=
  match s with
  | [] => pat.isEmpty
  | _ :: rest => pat.isPrefixOf s || jsIncludes rest pat

/-- Mirrors JavaScript `String.prototype.split(sep)` for a single-character
separator: empty fields are kept, and the empty string splits to `[[]]`. -/
def splitChar (sep : Char) : List Char → List (List Char)
  | [] => [[]]
  | x :: xs =>
    let r := splitChar sep xs
    if x == sep then [] :: r
    else
      match r with
      | h :: t => (x :: h) :: t
      | [] => [[x]]

/-- Character-wise lowercasing, mirroring `String.prototype.toLowerCase` on
ASCII paths. -/
def jsToLower (s : List Char) : List Char := s.map Char.toLower

/-- ALLOWED_EXTENSIONS from src/lib/github.ts line 1. -/
def ALLOWED_EXTENSIONS : List (List Char) :=
  [".ts".toList, ".tsx".toList, ".js".toList, ".jsx".toList, ".py".toList,
   ".dart".toList, ".go".toList, ".rs".toList, ".java".toList, ".kt".toList,
   ".swift".toList, ".php".toList, ".rb".toList, ".c".toList, ".cpp".toList,
   ".h".toList]

/-- IGNORE_PATTERNS from src/lib/github.ts line 2. -/
def IGNORE_PATTERNS : List (List Char) :=
  ["node_modules".toList, "dist".toList, "build".toList, "out".toList,
   ".git".toList, ".github".toList, "test".toList, "tests".toList,
   "__tests__".toList, "spec".toList, "assets".toList, "public".toList,
   "components/ui".toList, ".d.ts".toList, "locales".toList, "i18n".toList,
   "translations".toList, "lang".toList, "l10n".toList]

/-- IGNORE_PATTERNS of the deployed analyze-project route (the route's copy
lacks the five localization entries of the library's list). -/
def ROUTE_IGNORE_PATTERNS : List (List Char) :=
  ["node_modules".toList, "dist".toList, "build".toList, "out".toList,
   ".git".toList, ".github".toList, "test".toList, "tests".toList,
   "__tests__".toList, "spec".toList, "assets".toList, "public".toList,
   "components/ui".toList, ".d.ts".toList]

def MAX_CODE_FILES : Nat := 15

def MAX_FILE_SIZE : Nat := 50000

def TOTAL_CODE_LIMIT : Nat := 500000

/-- Character class `[0-9a-z]` of the extension regex under the `i` flag. -/
def extChar (c : Char) : Bool :=
  ('0' ≤ c && c ≤ '9') || ('a' ≤ c && c ≤ 'z') || ('A' ≤ c && c ≤ 'Z')

/-- Extension extraction of `isInterestingFile`: the match of the regex
`\.[0-9a-z]+$/i` lowercased, or `[]` when the regex does not match
(`extMatch ? extMatch[0].toLowerCase() : ''`). -/
def extOf (p : List Char) : List Char :=
  let rev := p.reverse
  let run := rev.takeWhile extChar
  if run.isEmpty then []
  else
    match rev.drop run.length with
    | '.' :: _ => jsToLower ('.' :: run.reverse)
    | _ => []

/-- isInterestingFile from src/lib/github.ts lines 7-14. -/
def isInterestingFile (p : List Char) : Bool :=
  let ext := extOf p
  if !(ALLOWED_EXTENSIONS.contains ext) then false
  else
    let lowerPath := jsToLower p
    !(IGNORE_PATTERNS.any fun pat => jsIncludes lowerPath pat)

/-- File filter of the deployed analyze-project route: same body as
`isInterestingFile` but over the route's shorter ignore list. -/
def routeIsInterestingFile (p : List Char) : Bool :=
  let ext := extOf p
  if !(ALLOWED_EXTENSIONS.contains ext) then false
  else
    let lowerPath := jsToLower p
    !(ROUTE_IGNORE_PATTERNS.any fun pat => jsIncludes lowerPath pat)

/-- Sort key of the ranking comparator in src/lib/github.ts lines 65-69:
`(p.includes('src/') ? -10 : 0) + (p.includes('pages') ? -5 : 0) +
(p.includes('main') ? -5 : 0) + p.length`. -/
def score (p : List Char) : Int :=
  (if jsIncludes p "src/".toList then -10 else 0)
    + (if jsIncludes p "pages".toList then -5 else 0)
    + (if jsIncludes p "main".toList then -5 else 0)
    + (p.length : Int)

/-- Ranking of candidate files: the comparator `scoreA - scoreB` sorts
ascending by `score`; `Array.prototype.sort` is stable, which insertion sort
realises. -/
def rankFiles (files : List (List Char)) : List (List Char) :=
  List.insertionSort (fun a b => score a ≤ score b) files

/-- Content-fetch selection: `codeFiles.slice(0, MAX_CODE_FILES)` applied to
the ranked list (src/lib/github.ts line 71). -/
def selectedOfRanked (codeFiles : List (List Char)) : List (List Char) :=
  (rankFiles codeFiles).take MAX_CODE_FILES

/-- Structure listing: `codeFiles.slice(0, 50)` applied to the ranked list
(src/lib/github.ts line 72). -/
def structureOfRanked (codeFiles : List (List Char)) : List (List Char) :=
  (rankFiles codeFiles).take 50

/-- Outcome of one upstream HTTP request for a file path: a raw body on a 2xx
response, `notOk` for `!res.ok` (e.g. 404), `netError` for a rejection thrown
by `fetch` itself. -/
inductive HttpOutcome where
  | ok (body : List Char)
  | notOk
  | netError
deriving DecidableEq, Repr

/-- fetchGithubFile from src/lib/github.ts lines 16-26, as a promise result:
`Except.error ()` models a rejected promise (the underlying `fetch` threw),
`Except.ok none` models the resolved `null` returned on `!res.ok`, and
`Except.ok (some body)` the resolved raw text.  The environment `env` gives
the upstream's response per requested path (repository and credential fixed). -/
def fetchGithubFile (env : List Char → HttpOutcome) (filePath : List Char) :
    Except Unit (Option (List Char)) :=
  match env filePath with
  | .ok body => .ok (some body)
  | .notOk => .ok none
  | .netError => .error ()

/-- README retrieval of analyzeGithubProject (src/lib/github.ts lines 58-59):
`fetchGithubFile(repo,'README.md').catch(() => fetchGithubFile(repo,'readme.md'))`.
The `.catch` handler runs only when the first promise rejects. -/
def readmeRetrieval (env : List Char → HttpOutcome) :
    Except Unit (Option (List Char)) :=
  match fetchGithubFile env "README.md".toList with
  | .ok v => .ok v
  | .error _ => fetchGithubFile env "readme.md".toList

/-- Atomic events of the concurrent content-fetch phase
(src/lib/github.ts lines 74-84).  `check i` is the synchronous start of the
i-th callback of `selectedFiles.map(async f => ...)`: it reads `totalSize`
and either returns early or dispatches the fetch.  `commit i` is the
resumption after `await fetchGithubFile(...)` resolves: it stores the
truncated content and bumps `totalSize` (no `await` separates the store from
the bump, so the commit is atomic). -/
inductive FetchEv where
  | check (i : Nat)
  | commit (i : Nat)
deriving DecidableEq, Repr

/-- Mutable state shared by the concurrent fetch callbacks: `context.files`
as an insertion-ordered association list, the running `totalSize`, and the
indices whose fetch is in flight (budget check passed, result not yet
committed). -/
structure PhaseState where
  files : List (List Char × List Char)
  totalSize : Nat
  inflight : List Nat
deriving DecidableEq, Repr

/-- Effect of one atomic event on the shared state.  `fetch f = none` models
a fetch that resolved `null` (failure swallowed: the file is omitted);
contents that resolved are truncated to `MAX_FILE_SIZE` before being stored
and counted. -/
def phaseStep (sel : List (List Char)) (fetch : List Char → Option (List Char))
    (s : PhaseState) : FetchEv → PhaseState
  | .check i =>
    if s.totalSize ≥ TOTAL_CODE_LIMIT then s
    else { s with inflight := s.inflight ++ [i] }
  | .commit i =>
    if i ∈ s.inflight then
      let s' := { s with inflight := s.inflight.erase i }
      match sel[i]? with
      | none => s'
      | some f =>
        match fetch f with
        | none => s'
        | some content =>
          let truncated := content.take MAX_FILE_SIZE
          { s' with files := s'.files ++ [(f, truncated)],
                    totalSize := s'.totalSize + truncated.length }
    else s

def initPhase : PhaseState := ⟨[], 0, []⟩

/-- Event traces the JavaScript event loop can produce for the phase: `map`
runs every callback's synchronous prefix (its budget check) in list order
before any fetch resolves; the commits then occur in completion order `ord`,
which is the only source of nondeterminism. -/
def jsTrace (sel : List (List Char)) (ord : List Nat) : List FetchEv :=
  (List.range sel.length).map FetchEv.check ++ ord.map FetchEv.commit

/-- State of `context.files`/`totalSize` after the concurrent fetch phase
over selection `sel` with upstream contents `fetch`, when the in-flight
fetches complete in order `ord`. -/
def runPhase (sel : List (List Char)) (fetch : List Char → Option (List Char))
    (ord : List Nat) : PhaseState :=
  (jsTrace sel ord).foldl (phaseStep sel fetch) initPhase

/-- Sequential content-read loop of the local branch of the analyze-project
route (part_000 lines 174-184): `for f of selectedFiles { if total ≥ limit
break; read; truncate; store; bump }`, a failed read being swallowed. -/
def localLoop (read : List Char → Option (List Char)) :
    List (List Char) → Nat → List (List Char × List Char) →
    List (List Char × List Char)
  | [], _, acc => acc
  | f :: fs, total, acc =>
    if total ≥ TOTAL_CODE_LIMIT then acc
    else
      match read f with
      | none => localLoop read fs total acc
      | some content =>
        let truncated := content.take MAX_FILE_SIZE
        localLoop read fs (total + truncated.length) (acc ++ [(f, truncated)])

/-- Source classification of analyzeGithubProject (src/lib/github.ts lines
44-54), returning `(isGithub, repoSlug)`.  The WHATWG `URL` constructor and
its `pathname` are a platform collaborator, abstracted by `urlPathname`
(`none` models the constructor throwing, which the surrounding try/catch
swallows with `isGithub` still false). -/
def classify (urlPathname : List Char → Option (List Char)) (projectPath : List Char) :
    Bool × List Char :=
  if "http".toList.isPrefixOf projectPath && jsIncludes projectPath "github.com".toList then
    match urlPathname projectPath with
    | none => (false, projectPath)
    | some pn =>
      let parts := (splitChar '/' pn).filter (fun s => !s.isEmpty)
      match parts with
      | a :: b :: _ => (true, a ++ '/' :: b)
      | _ => (false, projectPath)
  else
    if !("/".toList.isPrefixOf projectPath) && (splitChar '/' projectPath).length == 2 then
      (true, projectPath)
    else (false, projectPath)

/-- Content fetch used by the concurrent phase: the resolved value of
`fetchGithubFile` when it does not reject (`notOk` resolves `null`). -/
def fetchOpt (env : List Char → HttpOutcome) (p : List Char) : Option (List Char) :=
  match env p with
  | .ok body => some body
  | _ => none

/-- Candidate files of the remote pipeline: `allFiles.filter(isInterestingFile)`
where `allFiles` is the tree listing the upstream returned
(src/lib/github.ts lines 62-63). -/
def codeFilesOf (tree : List (List Char)) : List (List Char) :=
  tree.filter isInterestingFile

def rankedOf (tree : List (List Char)) : List (List Char) :=
  rankFiles (codeFilesOf tree)

def selectedOf (tree : List (List Char)) : List (List Char) :=
  (rankedOf tree).take MAX_CODE_FILES

/-- Final `context.files` of the remote pipeline for a given tree listing,
upstream contents and completion order. -/
def remoteFilesOf (tree : List (List Char)) (env : List Char → HttpOutcome)
    (ord : List Nat) : List (List Char × List Char) :=
  (runPhase (selectedOf tree) (fetchOpt env) ord).files

/-- Upstream GitHub API as seen through a fixed credential: `file slug p` is
the outcome of the raw-contents request for path `p` of repository `slug`,
and `tree slug` is the blob-path list `fetchGithubTree` returns for it (that
helper already collapses every failure to `[]`, so the listing is modelled by
its returned value). -/
structure GithubEnv where
  file : List Char → List Char → HttpOutcome
  tree : List Char → List (List Char)

/-- Truthiness-guarded README storage `if (readme) context.readme =
readme.slice(0, 200000)`: an empty string is falsy in JavaScript, so it is
not stored. -/
def truthyReadme (v : Option (List Char)) : Option (List Char) :=
  match v with
  | some r => if r.isEmpty then none else some (r.take 200000)
  | none => none

/-- Assembled `context` object.  The JSON value `JSON.parse` produces for
package.json is a platform concern; `pkgRaw` records the raw text the parse
was applied to (parse success abstracted), `none` when the field is absent. -/
structure Ctx where
  path : List Char
  files : List (List Char × List Char)
  structureListing : List (List Char)
  readme : Option (List Char)
  pkgRaw : Option (List Char)
deriving DecidableEq, Repr

def INVALID_REPO_MSG : List Char := "Invalid GitHub Repository URL".toList

/-- Message of a promise rejection surfaced by the platform's `fetch`; its
exact text is a platform detail and is abstracted to this constant. -/
def FETCH_REJECTED_MSG : List Char := "fetch rejected".toList

/-- analyzeGithubProject from src/lib/github.ts lines 42-93.  The result
`Except.error msg` models a thrown error of message `msg` propagating to the
caller; `ord` is the completion order of the concurrently dispatched content
fetches.  A rejected README retrieval or any rejected selected-file fetch
(`Promise.all`) makes the whole function throw; the package.json step
swallows its failures. -/
def analyzeGithubProject (env : GithubEnv)
    (urlPathname : List Char → Option (List Char))
    (projectPath : List Char) (ord : List Nat) : Except (List Char) Ctx :=
  let c := classify urlPathname projectPath
  if !c.1 then .error INVALID_REPO_MSG
  else
    match readmeRetrieval (env.file c.2) with
    | .error _ => .error FETCH_REJECTED_MSG
    | .ok readmeOpt =>
      let selected := selectedOf (env.tree c.2)
      if selected.any (fun f => env.file c.2 f == HttpOutcome.netError) then
        .error FETCH_REJECTED_MSG
      else
        let st := runPhase selected (fetchOpt (env.file c.2)) ord
        let pkg := fetchOpt (env.file c.2) "package.json".toList
        .ok { path := projectPath
              files := st.files
              structureListing := (rankedOf (env.tree c.2)).take 50
              readme := truthyReadme readmeOpt
              pkgRaw := match pkg with
                        | some b => if b.isEmpty then none else some b
                        | none => none }

/-- Body of an HTTP response of the analyze-project route: either the
serialized `{ error: msg }` object or the serialized context. -/
inductive RouteBody where
  | errorMsg (msg : List Char)
  | contextBody (ctx : Ctx)
deriving DecidableEq, Repr

structure RouteResponse where
  status : Nat
  body : RouteBody
deriving DecidableEq, Repr

def LOCAL_NOT_SUPPORTED_MSG : List Char :=
  "Local file analysis is not supported on this deployment. Please use a GitHub repository URL (e.g. \"username/repo\").".toList

/-- Catch-all 500 of the route: `Server Error: ${message}`, the interpolated
message being abstracted. -/
def SERVER_ERROR_MSG : List Char := "Server Error".toList

/-- POST handler of the deployed (Cloudflare) analyze-project route
(part_000 lines 252-335), from the point where the request body parsed:
`projectPath?` is its `projectPath` field.  The local/unclassified branch
returns a structured 400 response; a thrown rejection inside the GitHub
branch is converted to a 500 by the outer catch. -/
def analyzeProjectRoute (env : GithubEnv)
    (urlPathname : List Char → Option (List Char))
    (projectPath? : Option (List Char)) (ord : List Nat) : RouteResponse :=
  match projectPath? with
  | none => ⟨400, .errorMsg "Project path required".toList⟩
  | some projectPath =>
    let c := classify urlPathname projectPath
    if c.1 then
      match readmeRetrieval (env.file c.2) with
      | .error _ => ⟨500, .errorMsg SERVER_ERROR_MSG⟩
      | .ok readmeOpt =>
        let codeFiles := (env.tree c.2).filter routeIsInterestingFile
        let ranked := rankFiles codeFiles
        let selected := ranked.take MAX_CODE_FILES
        if selected.any (fun f => env.file c.2 f == HttpOutcome.netError) then
          ⟨500, .errorMsg SERVER_ERROR_MSG⟩
        else
          let st := runPhase selected (fetchOpt (env.file c.2)) ord
          ⟨200, .contextBody
            { path := projectPath
              files := st.files
              structureListing := ranked.take 50
              readme := truthyReadme readmeOpt
              pkgRaw := none }⟩
    else ⟨400, .errorMsg LOCAL_NOT_SUPPORTED_MSG⟩

theorem jsIncludes_append_self (xs pat : List Char) :
    jsIncludes (xs ++ pat) pat = true := by
  induction xs with
  | nil =>
    cases pat with
    | nil => rfl
    | cons c cs => simp [jsIncludes, List.isPrefixOf_iff_prefix]
  | cons x xs ih => simp [jsIncludes, ih]

theorem jsToLower_append (xs ys : List Char) :
    jsToLower (xs ++ ys) = jsToLower xs ++ jsToLower ys := by
  simp [jsToLower]

end GithubAnalyze

namespace GithubAnalyze

/-- Claim C7: any path whose trailing extension (lowercased, per the regex
match) is not in the allow-list is rejected by the File Interest Filter,
whatever its ignore-substring content. -/
theorem nonallowed_extension_rejected (p : List Char)
    (h : ALLOWED_EXTENSIONS.contains (extOf p) = false) :
    isInterestingFile p = false := by
  simp only [isInterestingFile, h]
  rfl

/-- Witness for C7 at the concrete path style.css. -/
theorem nonallowed_extension_rejected_box :
    ALLOWED_EXTENSIONS.contains (extOf "style.css".toList) = false ∧
    isInterestingFile "style.css".toList = false :=
  ⟨by decide, nonallowed_extension_rejected _ (by decide)⟩

/-- Claim C8: a path whose lowercasing contains any ignore substring is
rejected even when its extension is allowed, and in particular every path
ending in the literal characters .d.ts is rejected, because the
ignore-substring check matches .d.ts literally. -/
theorem ignored_path_rejected (p : List Char) :
    ((IGNORE_PATTERNS.any fun pat => jsIncludes (jsToLower p) pat) = true →
      isInterestingFile p = false) ∧
    (∀ q : List Char, p = q ++ ".d.ts".toList → isInterestingFile p = false) := by
  constructor
  · intro h
    simp only [isInterestingFile, h]
    cases hc : ALLOWED_EXTENSIONS.contains (extOf p) <;> simp
  · rintro q rfl
    have hmem : jsIncludes (jsToLower (q ++ ".d.ts".toList)) ".d.ts".toList = true := by
      rw [jsToLower_append]
      have : jsToLower ".d.ts".toList = ".d.ts".toList := by decide
      rw [this]
      exact jsIncludes_append_self _ _
    have hany : (IGNORE_PATTERNS.any fun pat =>
        jsIncludes (jsToLower (q ++ ".d.ts".toList)) pat) = true := by
      refine List.any_eq_true.mpr ⟨".d.ts".toList, by decide, hmem⟩
    simp only [isInterestingFile, hany]
    cases hc : ALLOWED_EXTENSIONS.contains (extOf (q ++ ".d.ts".toList)) <;> simp

/-- Witness for C8 at the concrete paths node_modules/a.ts and
src/types.d.ts. -/
theorem ignored_path_rejected_box :
    (IGNORE_PATTERNS.any fun pat =>
      jsIncludes (jsToLower "node_modules/a.ts".toList) pat) = true ∧
    isInterestingFile "node_modules/a.ts".toList = false ∧
    isInterestingFile ("src/types".toList ++ ".d.ts".toList) = false :=
  ⟨by decide, (ignored_path_rejected _).1 (by decide),
   (ignored_path_rejected _).2 "src/types".toList rfl⟩

/-- Counterexample to claim C4 as stated: the two candidate paths
src/abcd.go and pagesmain.c have equal length, exactly one contains src/,
yet their sort keys tie (the pages and main bonuses of the second offset the
src/ bonus of the first), so the comparator does not order the src/ path
strictly earlier: the stable sort leaves pagesmain.c first. -/
theorem src_tie_counterexample :
    "src/abcd.go".toList.length = "pagesmain.c".toList.length ∧
    jsIncludes "src/abcd.go".toList "src/".toList = true ∧
    jsIncludes "pagesmain.c".toList "src/".toList = false ∧
    isInterestingFile "src/abcd.go".toList = true ∧
    isInterestingFile "pagesmain.c".toList = true ∧
    ¬(score "src/abcd.go".toList < score "pagesmain.c".toList) ∧
    rankFiles ["pagesmain.c".toList, "src/abcd.go".toList]
      = ["pagesmain.c".toList, "src/abcd.go".toList] := by
  refine ⟨by decide, by decide, by decide, by decide, by decide, by decide, by decide⟩

/-- Claim C4 amended: for equal-length paths of which exactly one contains
src/, and which agree on containing pages and on containing main, the path
containing src/ scores strictly lower and is ranked strictly earlier. -/
theorem src_bonus_orders_earlier (a b : List Char)
    (hlen : a.length = b.length)
    (hsa : jsIncludes a "src/".toList = true)
    (hsb : jsIncludes b "src/".toList = false)
    (hp : jsIncludes a "pages".toList = jsIncludes b "pages".toList)
    (hm : jsIncludes a "main".toList = jsIncludes b "main".toList) :
    score a < score b ∧ rankFiles [b, a] = [a, b] := by
  have hs : score a < score b := by
    unfold score
    rw [hsa, hsb, hp, hm, hlen]
    cases jsIncludes b "pages".toList <;> cases jsIncludes b "main".toList <;>
      simp <;> omega
  refine ⟨hs, ?_⟩
  simp [rankFiles, List.insertionSort, List.orderedInsert, (not_le.mpr hs)]

/-- Witness for C4's amended statement at src/ab.go versus qwerty.py. -/
theorem src_bonus_orders_earlier_box :
    "src/ab.go".toList.length = "qwerty.py".toList.length ∧
    score "src/ab.go".toList < score "qwerty.py".toList ∧
    rankFiles ["qwerty.py".toList, "src/ab.go".toList]
      = ["src/ab.go".toList, "qwerty.py".toList] :=
  ⟨by decide,
   (src_bonus_orders_earlier _ _ (by decide) (by decide) (by decide)
     (by decide) (by decide)).1,
   (src_bonus_orders_earlier _ _ (by decide) (by decide) (by decide)
     (by decide) (by decide)).2⟩

/-- Claim C5: the ranking/selection policy returns at most 15 entries for
content fetching and at most 50 for the structure listing, and when the
candidate list is short enough every candidate is selected. -/
theorem selection_caps (codeFiles : List (List Char)) :
    (selectedOfRanked codeFiles).length ≤ MAX_CODE_FILES ∧
    (structureOfRanked codeFiles).length ≤ 50 ∧
    (codeFiles.length ≤ MAX_CODE_FILES →
      ∀ f ∈ codeFiles, f ∈ selectedOfRanked codeFiles) ∧
    (codeFiles.length ≤ 50 → ∀ f ∈ codeFiles, f ∈ structureOfRanked codeFiles) := by
  have hperm : (rankFiles codeFiles).Perm codeFiles :=
    List.perm_insertionSort _ codeFiles
  have hlen : (rankFiles codeFiles).length = codeFiles.length := hperm.length_eq
  refine ⟨?_, ?_, ?_, ?_⟩
  · simp [selectedOfRanked]
  · simp [structureOfRanked]
  · intro h f hf
    have : selectedOfRanked codeFiles = rankFiles codeFiles := by
      unfold selectedOfRanked
      exact List.take_of_length_le (by omega)
    rw [this]
    exact hperm.mem_iff.mpr hf
  · intro h f hf
    have : structureOfRanked codeFiles = rankFiles codeFiles := by
      unfold structureOfRanked
      exact List.take_of_length_le (by omega)
    rw [this]
    exact hperm.mem_iff.mpr hf

/-- Witness for C5 at a concrete two-candidate list. -/
theorem selection_caps_box :
    (["a.ts".toList, "b.js".toList] : List (List Char)).length ≤ MAX_CODE_FILES ∧
    "a.ts".toList ∈ selectedOfRanked ["a.ts".toList, "b.js".toList] :=
  ⟨by decide,
   (selection_caps ["a.ts".toList, "b.js".toList]).2.2.1 (by decide) _ (by decide)⟩

/-- Entry that the commit of index `i` appends, if any: the selected path at
`i` paired with its truncated content. -/
def commitResult (sel : List (List Char)) (fetch : List Char → Option (List Char))
    (i : Nat) : Option (List Char × List Char) :=
  match sel[i]? with
  | none => none
  | some f =>
    match fetch f with
    | none => none
    | some content => some (f, content.take MAX_FILE_SIZE)

theorem foldl_checks (sel : List (List Char)) (fetch : List Char → Option (List Char)) :
    ∀ (l : List Nat) (s : PhaseState), s.totalSize < TOTAL_CODE_LIMIT →
      (l.map FetchEv.check).foldl (phaseStep sel fetch) s
        = { s with inflight := s.inflight ++ l } := by
  intro l
  induction l with
  | nil => intro s _; simp
  | cons x xs ih =>
    intro s hs
    have hstep : phaseStep sel fetch s (FetchEv.check x)
        = { s with inflight := s.inflight ++ [x] } := by
      simp [phaseStep, if_neg (not_le.mpr hs)]
    simp only [List.map_cons, List.foldl_cons, hstep]
    rw [ih _ (by simpa using hs)]
    simp

theorem foldl_commits (sel : List (List Char)) (fetch : List Char → Option (List Char)) :
    ∀ (ord : List Nat) (s : PhaseState), ord.Nodup →
      (∀ i ∈ ord, i ∈ s.inflight) →
      ((ord.map FetchEv.commit).foldl (phaseStep sel fetch) s).files
          = s.files ++ ord.filterMap (commitResult sel fetch) ∧
      ((ord.map FetchEv.commit).foldl (phaseStep sel fetch) s).totalSize
          = s.totalSize
            + ((ord.filterMap (commitResult sel fetch)).map
                (fun pv => pv.2.length)).sum := by
  intro ord
  induction ord with
  | nil => intro s _ _; simp
  | cons i rest ih =>
    intro s hnd hmem
    have hi : i ∈ s.inflight := hmem i (by simp)
    have hrest : ∀ j ∈ rest, j ∈ s.inflight.erase i := by
      intro j hj
      have hne : j ≠ i := by
        intro hcontra
        exact (List.nodup_cons.mp hnd).1 (hcontra ▸ hj)
      exact (List.mem_erase_of_ne hne).mpr (hmem j (by simp [hj]))
    have hndr : rest.Nodup := (List.nodup_cons.mp hnd).2
    cases hsel : sel[i]? with
    | none =>
      have hstep : phaseStep sel fetch s (FetchEv.commit i)
          = { s with inflight := s.inflight.erase i } := by
        simp [phaseStep, hi, hsel]
      simp only [List.map_cons, List.foldl_cons, hstep]
      have h := ih { s with inflight := s.inflight.erase i } hndr (by simpa using hrest)
      simpa [List.filterMap_cons, commitResult, hsel] using h
    | some f =>
      cases hf : fetch f with
      | none =>
        have hstep : phaseStep sel fetch s (FetchEv.commit i)
            = { s with inflight := s.inflight.erase i } := by
          simp [phaseStep, hi, hsel, hf]
        simp only [List.map_cons, List.foldl_cons, hstep]
        have h := ih { s with inflight := s.inflight.erase i } hndr (by simpa using hrest)
        simpa [List.filterMap_cons, commitResult, hsel, hf] using h
      | some content =>
        have hstep : phaseStep sel fetch s (FetchEv.commit i)
            = { files := s.files ++ [(f, content.take MAX_FILE_SIZE)],
                totalSize := s.totalSize + (content.take MAX_FILE_SIZE).length,
                inflight := s.inflight.erase i } := by
          simp [phaseStep, hi, hsel, hf]
        simp only [List.map_cons, List.foldl_cons, hstep]
        have h := ih ⟨s.files ++ [(f, content.take MAX_FILE_SIZE)],
            s.totalSize + (content.take MAX_FILE_SIZE).length,
            s.inflight.erase i⟩ hndr (by simpa using hrest)
        rcases h with ⟨h1, h2⟩
        constructor
        · rw [h1]
          simp [List.filterMap_cons, commitResult, hsel, hf]
        · rw [h2]
          simp [List.filterMap_cons, commitResult, hsel, hf]
          omega

/-- Restriction of an execution of the concurrent phase to the shape the
JavaScript event loop produces, starting from the initial shared state. -/
theorem runPhase_eq (sel : List (List Char)) (fetch : List Char → Option (List Char))
    (ord : List Nat) :
    runPhase sel fetch ord
      = (ord.map FetchEv.commit).foldl (phaseStep sel fetch)
          ⟨[], 0, List.range sel.length⟩ := by
  unfold runPhase jsTrace
  rw [List.foldl_append,
    foldl_checks sel fetch _ initPhase (by norm_num [initPhase, TOTAL_CODE_LIMIT])]
  simp [initPhase]

/-- Closed form of the concurrent phase when every fetch completes exactly
once: the stored files are the commit results in completion order, and the
final running total is the sum of the stored lengths. -/
theorem runPhase_files (sel : List (List Char)) (fetch : List Char → Option (List Char))
    (ord : List Nat) (hnd : ord.Nodup) (hlt : ∀ i ∈ ord, i < sel.length) :
    (runPhase sel fetch ord).files = ord.filterMap (commitResult sel fetch) ∧
    (runPhase sel fetch ord).totalSize
      = ((ord.filterMap (commitResult sel fetch)).map (fun pv => pv.2.length)).sum := by
  rw [runPhase_eq]
  have h := foldl_commits sel fetch ord ⟨[], 0, List.range sel.length⟩ hnd
    (by intro i hi; simpa using hlt i hi)
  simpa using h

def isCheck : FetchEv → Bool
  | .check _ => true
  | .commit _ => false

theorem phaseStep_len (sel : List (List Char)) (fetch : List Char → Option (List Char))
    (s : PhaseState) (e : FetchEv) :
    (phaseStep sel fetch s e).files.length + (phaseStep sel fetch s e).inflight.length
      ≤ s.files.length + s.inflight.length + (if isCheck e then 1 else 0) := by
  cases e with
  | check i =>
    by_cases hc : s.totalSize ≥ TOTAL_CODE_LIMIT
    · simp [phaseStep, hc, isCheck]
    · simp [phaseStep, hc, isCheck]
      omega
  | commit i =>
    by_cases hii : i ∈ s.inflight
    · have hpos : 0 < s.inflight.length := List.length_pos_of_mem hii
      have herase : (s.inflight.erase i).length = s.inflight.length - 1 :=
        List.length_erase_of_mem hii
      cases hsel : sel[i]? with
      | none => simp [phaseStep, hii, hsel, isCheck]
      | some f =>
        cases hf : fetch f with
        | none => simp [phaseStep, hii, hsel, hf, isCheck]
        | some content =>
          simp [phaseStep, hii, hsel, hf, isCheck]
          omega
    · simp [phaseStep, hii, isCheck]

/-- Whatever the interleaving, the number of stored files plus the number of
in-flight fetches grows only with check events (each callback dispatches at
most once, and each commit stores at most one file while retiring its
dispatch). -/
theorem phase_len_invariant (sel : List (List Char))
    (fetch : List Char → Option (List Char)) :
    ∀ (evs : List FetchEv) (s : PhaseState),
      (evs.foldl (phaseStep sel fetch) s).files.length
          + (evs.foldl (phaseStep sel fetch) s).inflight.length
        ≤ s.files.length + s.inflight.length + (evs.filter isCheck).length := by
  intro evs
  induction evs with
  | nil => intro s; simp
  | cons e rest ih =>
    intro s
    have h1 := ih (phaseStep sel fetch s e)
    have h2 := phaseStep_len sel fetch s e
    simp only [List.foldl_cons, List.filter_cons]
    cases he : isCheck e <;> simp [he] at h2 ⊢ <;> omega

/-- Whatever the interleaving, every stored value is the `MAX_FILE_SIZE`
truncation of the content the upstream returned for its key. -/
theorem phase_files_entries (sel : List (List Char))
    (fetch : List Char → Option (List Char)) :
    ∀ (evs : List FetchEv) (s : PhaseState),
      (∀ pv ∈ s.files, ∃ c, fetch pv.1 = some c ∧ pv.2 = c.take MAX_FILE_SIZE) →
      ∀ pv ∈ (evs.foldl (phaseStep sel fetch) s).files,
        ∃ c, fetch pv.1 = some c ∧ pv.2 = c.take MAX_FILE_SIZE := by
  intro evs
  induction evs with
  | nil => intro s h; simpa using h
  | cons e rest ih =>
    intro s h
    refine ih _ ?_
    cases e with
    | check i =>
      by_cases hc : s.totalSize ≥ TOTAL_CODE_LIMIT
      · simpa [phaseStep, hc] using h
      · simpa [phaseStep, hc] using h
    | commit i =>
      by_cases hii : i ∈ s.inflight
      · cases hsel : sel[i]? with
        | none => simpa [phaseStep, hii, hsel] using h
        | some f =>
          cases hf : fetch f with
          | none => simpa [phaseStep, hii, hsel, hf] using h
          | some content =>
            intro pv hpv
            have hsplit : pv ∈ s.files ∨ pv = (f, content.take MAX_FILE_SIZE) := by
              simpa [phaseStep, hii, hsel, hf, List.mem_append] using hpv
            rcases hsplit with h1 | rfl
            · exact h _ h1
            · exact ⟨content, hf, rfl⟩
      · simpa [phaseStep, hii] using h

theorem filterMap_getElem_range {α : Type} (l : List α) (k : Nat) (hk : k ≤ l.length) :
    (List.range k).filterMap (fun i => l[i]?) = l.take k := by
  induction k with
  | zero => simp
  | succ n ih =>
    rw [List.range_succ, List.filterMap_append, ih (by omega), List.take_succ]
    simp [List.getElem?_eq_getElem (show n < l.length by omega)]

def bigList : List Char := List.replicate 50000 'a'

def cexTree : List (List Char) :=
  ["a01.ts".toList, "a02.ts".toList, "a03.ts".toList, "a04.ts".toList,
   "a05.ts".toList, "a06.ts".toList, "a07.ts".toList, "a08.ts".toList,
   "a09.ts".toList, "a10.ts".toList, "a11.ts".toList, "a12.ts".toList,
   "a13.ts".toList, "a14.ts".toList, "a15.ts".toList, "a16.ts".toList]

def cexEnv : List Char → HttpOutcome := fun _ => HttpOutcome.ok bigList

theorem bigList_length : bigList.length = 50000 := List.length_replicate 50000 'a'

theorem sum_map_pair (l : List (List Char)) :
    ((l.map (fun f => (f, bigList))).map (fun pv => pv.2.length)).sum
      = l.length * 50000 := by
  induction l with
  | nil => simp
  | cons x xs ih =>
    simp only [List.map_cons, List.sum_cons, ih, List.length_cons, bigList_length]
    omega

theorem cex_take : bigList.take MAX_FILE_SIZE = bigList :=
  List.take_of_length_le (by rw [bigList_length]; exact le_rfl)

theorem cex_commitResult (i : Nat) :
    commitResult (selectedOf cexTree) (fetchOpt cexEnv) i
      = ((selectedOf cexTree)[i]?).map (fun f => (f, bigList)) := by
  cases hsel : (selectedOf cexTree)[i]? with
  | none => simp [commitResult, hsel]
  | some f => simp [commitResult, hsel, fetchOpt, cexEnv, cex_take]

theorem cex_run (k : Nat) (hk : k ≤ 15) :
    (runPhase (selectedOf cexTree) (fetchOpt cexEnv) (List.range k)).files.length = k ∧
    (runPhase (selectedOf cexTree) (fetchOpt cexEnv) (List.range k)).totalSize
      = k * 50000 := by
  have hlen : (selectedOf cexTree).length = 15 := by decide
  have h := runPhase_files (selectedOf cexTree) (fetchOpt cexEnv) (List.range k)
      (List.nodup_range k) (by intro i hi; simp at hi; omega)
  have hfm : (List.range k).filterMap (commitResult (selectedOf cexTree) (fetchOpt cexEnv))
      = ((selectedOf cexTree).take k).map (fun f => (f, bigList)) := by
    rw [List.filterMap_congr (by intro i _; exact cex_commitResult i),
      ← List.map_filterMap, filterMap_getElem_range _ _ (by omega)]
  have htk : ((selectedOf cexTree).take k).length = k := by
    rw [List.length_take]
    omega
  constructor
  · rw [h.1, hfm, List.length_map, htk]
  · rw [h.2, hfm, sum_map_pair, htk]

/-- Claim C1, counterexample to the claim as stated: sixteen ranked
candidates whose contents are each 50,000 characters.  The event trace of
the full remote run extends the trace in which only the first ten fetches
have committed; at that intermediate state the running total already equals
the 500,000 budget, yet the five fetches completing afterwards are still
added, ending at fifteen stored entries and 750,000 characters.  The budget
check runs at dispatch time (before any fetch resolves), not at commit
time. -/
theorem budget_trip_counterexample :
    16 ≤ (rankedOf cexTree).length ∧
    jsTrace (selectedOf cexTree) (List.range 15)
      = jsTrace (selectedOf cexTree) (List.range 10)
          ++ [FetchEv.commit 10, FetchEv.commit 11, FetchEv.commit 12,
              FetchEv.commit 13, FetchEv.commit 14] ∧
    (runPhase (selectedOf cexTree) (fetchOpt cexEnv) (List.range 10)).totalSize
      = TOTAL_CODE_LIMIT ∧
    (runPhase (selectedOf cexTree) (fetchOpt cexEnv) (List.range 10)).files.length = 10 ∧
    (runPhase (selectedOf cexTree) (fetchOpt cexEnv) (List.range 15)).files.length = 15 ∧
    (runPhase (selectedOf cexTree) (fetchOpt cexEnv) (List.range 15)).totalSize
      = 750000 := by
  refine ⟨by decide, by decide, ?_, (cex_run 10 (by norm_num)).1,
    (cex_run 15 le_rfl).1, ?_⟩
  · rw [(cex_run 10 (by norm_num)).2]
    rfl
  · rw [(cex_run 15 le_rfl).2]

/-- Claim C1 amended: the stop-on-budget property holds of the sequential
local-path content loop — once the running total has met or exceeded the
500,000 budget, the loop adds no further entry.  (In the concurrent remote
phase the budget is only checked at dispatch time, when the total is still
0, so results completing after the budget is tripped are still added; the
aggregate is instead bounded by 15 x 50,000.) -/
theorem localLoop_stops_after_budget (read : List Char → Option (List Char))
    (fs : List (List Char)) (total : Nat) (acc : List (List Char × List Char))
    (h : TOTAL_CODE_LIMIT ≤ total) :
    localLoop read fs total acc = acc := by
  cases fs with
  | nil => rfl
  | cons f fs' => simp [localLoop, h]

/-- Witness for C1's amended statement: at a met budget of exactly 500,000
the local loop adds nothing. -/
theorem localLoop_stops_after_budget_box :
    TOTAL_CODE_LIMIT ≤ 500000 ∧
    localLoop (fun _ => some ['x']) ["a.ts".toList] 500000 [] = [] :=
  ⟨by decide, localLoop_stops_after_budget _ _ _ _ (by decide)⟩

/-- Upstream in which README.md is absent (404, `!res.ok`) while readme.md
exists with content. -/
def absentEnv : List Char → HttpOutcome := fun p =>
  if p = "readme.md".toList then HttpOutcome.ok "# readme".toList
  else HttpOutcome.notOk

/-- Claim C2, evaluated at the failing input: with README.md absent (the
upstream answers 404, so `fetchGithubFile` RESOLVES to `null` rather than
rejecting) and readme.md present, the retrieval concludes that no README
exists (`Except.ok none`) without the alternate casing ever being consulted:
the `.catch` fallback runs only on a rejected promise, which a 404 never
produces. -/
theorem readme_fallback_dead_at_absent :
    absentEnv "README.md".toList = HttpOutcome.notOk ∧
    absentEnv "readme.md".toList = HttpOutcome.ok "# readme".toList ∧
    readmeRetrieval absentEnv = Except.ok none ∧
    readmeRetrieval (fun _ => HttpOutcome.netError) ≠ Except.ok none :=
  ⟨by decide, by decide, rfl, by simp [readmeRetrieval, fetchGithubFile]⟩

/-- Environment stub in which the URL collaborator always throws; irrelevant
to non-URL inputs. -/
def noUrl : List Char → Option (List Char) := fun _ => none

/-- Claim C3, counterexample to the claim as stated: at scenario C's input
/some/local/path the library extractor analyzeGithubProject does not return
a structured error value — it throws (modelled as `Except.error`), and the
thrown error propagates to its caller. -/
theorem analyze_throws_on_local_path :
    analyzeGithubProject ⟨fun _ _ => HttpOutcome.notOk, fun _ => []⟩ noUrl
      "/some/local/path".toList [] = Except.error INVALID_REPO_MSG := rfl

/-- Claim C3 amended: for every request whose projectPath cannot be
classified as a GitHub source (in particular every local path: the deployed
route has no local filesystem support), the deployed analyze-project route
returns the structured 400 response instructing use of a remote repository
reference, while the library function analyzeGithubProject throws an
Invalid GitHub Repository URL error to its caller. -/
theorem route_unclassified_structured_400 (env : GithubEnv)
    (urlPathname : List Char → Option (List Char)) (p : List Char) (ord : List Nat)
    (h : (classify urlPathname p).1 = false) :
    analyzeProjectRoute env urlPathname (some p) ord
        = ⟨400, RouteBody.errorMsg LOCAL_NOT_SUPPORTED_MSG⟩ ∧
    analyzeGithubProject env urlPathname p ord = Except.error INVALID_REPO_MSG := by
  constructor
  · simp [analyzeProjectRoute, h]
  · simp [analyzeGithubProject, h]

/-- Witness for C3's amended statement at the concrete local path of
scenario C. -/
theorem route_unclassified_structured_400_box :
    (classify noUrl "/some/local/path".toList).1 = false ∧
    analyzeProjectRoute ⟨fun _ _ => HttpOutcome.notOk, fun _ => []⟩ noUrl
        (some "/some/local/path".toList) []
      = ⟨400, RouteBody.errorMsg LOCAL_NOT_SUPPORTED_MSG⟩ :=
  ⟨by decide,
   (route_unclassified_structured_400 _ _ _ _ (by decide)).1⟩

/-- Claim C6: every value the remote fetch phase stores is the fetched
content truncated to 50,000 characters — content longer than the cap is
stored as exactly its first 50,000 characters, content at or under the cap
is stored unchanged. -/
theorem stored_content_truncation (tree : List (List Char))
    (env : List Char → HttpOutcome) (ord : List Nat) (f v : List Char)
    (hmem : (f, v) ∈ remoteFilesOf tree env ord) :
    ∃ c, fetchOpt env f = some c ∧
      (c.length ≤ MAX_FILE_SIZE → v = c) ∧
      (MAX_FILE_SIZE < c.length →
        v = c.take MAX_FILE_SIZE ∧ v.length = MAX_FILE_SIZE) := by
  obtain ⟨c, hc, hv⟩ := phase_files_entries (selectedOf tree) (fetchOpt env)
      (jsTrace (selectedOf tree) ord) initPhase (by simp [initPhase]) (f, v) hmem
  have hc' : fetchOpt env f = some c := hc
  have hv' : v = c.take MAX_FILE_SIZE := hv
  refine ⟨c, hc', ?_, ?_⟩
  · intro hle
    rw [hv']
    exact List.take_of_length_le hle
  · intro hlt
    refine ⟨hv', ?_⟩
    rw [hv', List.length_take]
    omega

/-- Upstream whose every file has 50,001 characters of content. -/
def bigEnv : List Char → HttpOutcome :=
  fun _ => HttpOutcome.ok (List.replicate 50001 'b')

/-- Witness for C6 at a content of 50,001 characters: the stored value is
its first 50,000 characters. -/
theorem stored_content_truncation_box :
    (("a.ts".toList, (List.replicate 50001 'b').take MAX_FILE_SIZE)
        ∈ remoteFilesOf ["a.ts".toList] bigEnv [0]) ∧
    (∃ c, fetchOpt bigEnv "a.ts".toList = some c ∧
      (c.length ≤ MAX_FILE_SIZE →
        (List.replicate 50001 'b').take MAX_FILE_SIZE = c) ∧
      (MAX_FILE_SIZE < c.length →
        (List.replicate 50001 'b').take MAX_FILE_SIZE = c.take MAX_FILE_SIZE ∧
        ((List.replicate 50001 'b').take MAX_FILE_SIZE).length = MAX_FILE_SIZE)) := by
  have hmem : ("a.ts".toList, (List.replicate 50001 'b').take MAX_FILE_SIZE)
      ∈ remoteFilesOf ["a.ts".toList] bigEnv [0] := by
    have h := (runPhase_files (selectedOf ["a.ts".toList]) (fetchOpt bigEnv) [0]
        (by decide) (by decide)).1
    have hr : remoteFilesOf ["a.ts".toList] bigEnv [0]
        = ([0] : List Nat).filterMap
            (commitResult (selectedOf ["a.ts".toList]) (fetchOpt bigEnv)) := h
    have hcr : commitResult (selectedOf ["a.ts".toList]) (fetchOpt bigEnv) 0
        = some ("a.ts".toList, (List.replicate 50001 'b').take MAX_FILE_SIZE) := rfl
    rw [hr, List.filterMap_cons_some hcr]
    exact List.mem_cons_self _ _
  exact ⟨hmem, stored_content_truncation _ _ _ _ _ hmem⟩

/-- Claim C9: with source, credential and upstream responses fixed, the keys
stored by the remote pipeline do not depend on the completion order of the
concurrent fetches — the key lists of two runs are permutations of each
other — so two identical extraction runs produce identical key sets. -/
theorem selected_keys_deterministic (tree : List (List Char))
    (env : List Char → HttpOutcome) (ord1 ord2 : List Nat)
    (h1 : ord1.Perm (List.range (selectedOf tree).length))
    (h2 : ord2.Perm (List.range (selectedOf tree).length)) :
    ((remoteFilesOf tree env ord1).map Prod.fst).Perm
      ((remoteFilesOf tree env ord2).map Prod.fst) := by
  have hnd1 : ord1.Nodup := h1.nodup_iff.mpr (List.nodup_range _)
  have hnd2 : ord2.Nodup := h2.nodup_iff.mpr (List.nodup_range _)
  have hlt1 : ∀ i ∈ ord1, i < (selectedOf tree).length := by
    intro i hi
    simpa using h1.mem_iff.mp hi
  have hlt2 : ∀ i ∈ ord2, i < (selectedOf tree).length := by
    intro i hi
    simpa using h2.mem_iff.mp hi
  have r1 : remoteFilesOf tree env ord1
      = ord1.filterMap (commitResult (selectedOf tree) (fetchOpt env)) :=
    (runPhase_files (selectedOf tree) (fetchOpt env) ord1 hnd1 hlt1).1
  have r2 : remoteFilesOf tree env ord2
      = ord2.filterMap (commitResult (selectedOf tree) (fetchOpt env)) :=
    (runPhase_files (selectedOf tree) (fetchOpt env) ord2 hnd2 hlt2).1
  rw [r1, r2]
  exact ((h1.trans h2.symm).filterMap _).map _

/-- Upstream whose every file has the one-character content x. -/
def smallEnv : List Char → HttpOutcome := fun _ => HttpOutcome.ok ['x']

/-- Witness for C9 at two opposite completion orders of a two-file
selection. -/
theorem selected_keys_deterministic_box :
    ([1, 0] : List Nat).Perm
        (List.range (selectedOf ["a.ts".toList, "b.js".toList]).length) ∧
    ((remoteFilesOf ["a.ts".toList, "b.js".toList] smallEnv [1, 0]).map Prod.fst).Perm
      ((remoteFilesOf ["a.ts".toList, "b.js".toList] smallEnv [0, 1]).map Prod.fst) :=
  ⟨by decide, selected_keys_deterministic _ _ _ _ (by decide) (by decide)⟩

theorem jsTrace_checks_length (sel : List (List Char)) (ord : List Nat) :
    ((jsTrace sel ord).filter isCheck).length = sel.length := by
  have h1 : (isCheck ∘ FetchEv.check) = fun _ : Nat => true := rfl
  have h2 : (isCheck ∘ FetchEv.commit) = fun _ : Nat => false := rfl
  simp [jsTrace, List.filter_append, List.filter_map, h1, h2]

/-- Claim C10: whatever the completion order and upstream contents — that
is, however the accepted budget-check race resolves — the files map of the
remote pipeline holds at most 15 entries, each stored value has at most
50,000 characters, and the aggregate stored content never exceeds 750,000
characters. -/
theorem aggregate_hard_bound (tree : List (List Char))
    (env : List Char → HttpOutcome) (ord : List Nat) :
    (remoteFilesOf tree env ord).length ≤ 15 ∧
    (∀ pv ∈ remoteFilesOf tree env ord, pv.2.length ≤ 50000) ∧
    ((remoteFilesOf tree env ord).map (fun pv => pv.2.length)).sum ≤ 750000 := by
  have hsel : (selectedOf tree).length ≤ 15 := by
    simp [selectedOf, MAX_CODE_FILES]
  have hlen : (remoteFilesOf tree env ord).length ≤ 15 := by
    have h := phase_len_invariant (selectedOf tree) (fetchOpt env)
        (jsTrace (selectedOf tree) ord) initPhase
    rw [jsTrace_checks_length] at h
    have hz : initPhase.files.length + initPhase.inflight.length = 0 := rfl
    have hr : (remoteFilesOf tree env ord).length
        = ((jsTrace (selectedOf tree) ord).foldl
            (phaseStep (selectedOf tree) (fetchOpt env)) initPhase).files.length := rfl
    omega
  have hent : ∀ pv ∈ remoteFilesOf tree env ord, pv.2.length ≤ 50000 := by
    intro pv hpv
    obtain ⟨c, _, hv⟩ := phase_files_entries (selectedOf tree) (fetchOpt env)
        (jsTrace (selectedOf tree) ord) initPhase (by simp [initPhase]) pv hpv
    rw [hv]
    simp [MAX_FILE_SIZE]
  refine ⟨hlen, hent, ?_⟩
  have hb := List.sum_le_card_nsmul
      ((remoteFilesOf tree env ord).map fun pv => pv.2.length) 50000
      (by intro x hx
          obtain ⟨pv, hpv, rfl⟩ := List.mem_map.mp hx
          exact hent pv hpv)
  rw [List.length_map, smul_eq_mul] at hb
  omega

end GithubAnalyze
